import Mathlib

/-!
Verification of the D1 store-loading pipeline (src/app/inventory/d1-stores.ts).

This file gives a shallow embedding of the store service: the pure helpers
(findLastPlayedDate, the bucket grouping and vault-count accounting inside
processStore) are translated directly into Lean functions; the stateful and
reactive parts (the loadStores try/catch boundary, the BehaviorSubject /
ConnectableObservable wiring of getStoresStream and reloadStores) are
translated into explicit state-passing functions whose steps mirror the
rxjs operator semantics used by the source.  JavaScript dates are modelled
as milliseconds since the epoch (Int); JavaScript objects used as maps are
modelled as association lists in insertion order.
-/

/-- A raw store record from the vendor API.  Only the fields the embedded
code reads are modelled: the identifying tag (`id`, which is the string
"vault" for the vault record) and the character's
`character.base.characterBase.dateLastPlayed`, modelled as milliseconds
since the epoch.  The date field of a vault record is never read by the
embedded code. -/
structure RawStore where
  id : String
  dateLastPlayed : Int
deriving DecidableEq

/-- Translation of findLastPlayedDate (d1-stores.ts lines 236-246):

    return Object.values(rawStores).reduce((memo, rawStore) =>
      if rawStore.id is "vault" then memo else
      let d1 = new Date(rawStore.character.base.characterBase.dateLastPlayed)
      memo ? (d1 >= memo ? d1 : memo) : d1
    , new Date(0))

The seed `new Date(0)` is a Date object, and every Date object is truthy in
JavaScript, so the accumulator is never falsy and the conditional
`memo ? ... : d1` always takes its first branch; dates compare by their
millisecond value.  Hence the step function below. -/
def findLastPlayedDate (rawStores : List RawStore) : Int :=
  rawStores.foldl
    (fun memo rawStore =>
      if rawStore.id = "vault" then memo
      else if rawStore.dateLastPlayed ≥ memo then rawStore.dateLastPlayed else memo)
    0

/-- The maximum `dateLastPlayed` among the character (non-vault) records
alone, following the specification's words ("the maximum dateLastPlayed
among character records"); `none` when there are no character records.
This definition exists only to be compared against `findLastPlayedDate`. -/
def maxCharacterDate : List RawStore → Option Int
  | [] => none
  | r :: t =>
    if r.id = "vault" then maxCharacterDate t
    else
      match maxCharacterDate t with
      | none => some r.dateLastPlayed
      | some m => some (max r.dateLastPlayed m)

/-- An item as read by the bucket accounting in processStore: only
`item.location.hash` is consulted; an id field keeps distinct items
distinguishable. -/
structure D1Item where
  itemId : Nat
  location : Nat
deriving DecidableEq

/-- The bucket object referenced by an InventoryBucket's vaultBucket
association; the embedded code reads only its hash. -/
structure VaultBucketInfo where
  hash : Nat
deriving DecidableEq

/-- An inventory bucket from the bucket catalog (buckets.byType), with the
fields processStore reads: hash, accountWide and the optional vaultBucket
association. -/
structure InventoryBucket where
  hash : Nat
  accountWide : Bool
  vaultBucket : Option VaultBucketInfo
deriving DecidableEq

/-- store.buckets is a JavaScript object keyed by bucket hash, modelled as
an association list in property-insertion order. -/
abbrev BucketMap := List (Nat × List D1Item)

def lookupBucket : BucketMap → Nat → Option (List D1Item)
  | [], _ => none
  | (k, v) :: rest, x => if k = x then some v else lookupBucket rest x

def bucketKeys (m : BucketMap) : List Nat :=
  m.map (fun p => p.1)

/-- One step of the lodash groupBy(items, (i) => i.location.hash): append
item i to its group, creating the group at the end when absent (JavaScript
object property-insertion order). -/
def addToGroup : BucketMap → D1Item → BucketMap
  | [], i => [(i.location, [i])]
  | (k, g) :: rest, i =>
    if k = i.location then (k, g ++ [i]) :: rest else (k, g) :: addToGroup rest i

/-- store.buckets = groupBy(items, (i) => i.location.hash)
(d1-stores.ts line 194). -/
def groupByLocation (items : List D1Item) : BucketMap :=
  items.foldl addToGroup []

/-- Fill in any missing buckets (d1-stores.ts lines 197-201):
Object.values(buckets.byType).forEach: when store.buckets[bucket.hash] is
falsy it is set to [].  A present value is always an array, hence truthy,
so the falsiness test is exactly absence of the key. -/
def fillMissingBuckets (catalog : List InventoryBucket) (m : BucketMap) : BucketMap :=
  catalog.foldl
    (fun acc b => if (lookupBucket acc b.hash).isSome then acc else acc ++ [(b.hash, [])])
    m

/-- The bucket mapping a processed store ends up with (lines 194-201):
group the items by location, then fill in the missing catalog buckets. -/
def fillBuckets (items : List D1Item) (catalog : List InventoryBucket) : BucketMap :=
  fillMissingBuckets catalog (groupByLocation items)

/-- JavaScript Array.prototype.indexOf: the index of the first occurrence
of x, and -1 when x is absent. -/
def jsIndexOf (l : List Nat) (x : Nat) : Int :=
  match l with
  | [] => -1
  | y :: ys =>
    if y = x then 0
    else
      let r := jsIndexOf ys x
      if r = -1 then -1 else r + 1

/-- The fixed priority list of d1-stores.ts lines 206-210: Weapons, Armor,
General. -/
def vaultBucketOrder : List Nat :=
  [4046403665, 3003523923, 138197802]

/-- Default used to model the TypeScript non-null assertion
bucket.vaultBucket!.  The assertion is only evaluated on buckets that
passed the (b) => b.vaultBucket filter, so the default is never consulted
on the code's own executions. -/
def junkVaultBucket : VaultBucketInfo := { hash := 0 }

/-- bucket.vaultBucket!.hash. -/
def vbHash (b : InventoryBucket) : Nat :=
  (b.vaultBucket.getD junkVaultBucket).hash

/-- The sort key used on line 214:
vaultBucketOrder.indexOf(b.vaultBucket!.hash). -/
def vaultSortKey (b : InventoryBucket) : Int :=
  jsIndexOf vaultBucketOrder (vbHash b)

/-- Stable insertion: x is placed before exactly the elements of strictly
greater key, so elements of equal key keep their relative order. -/
def insertSorted (key : InventoryBucket → Int) (x : InventoryBucket) :
    List InventoryBucket → List InventoryBucket
  | [] => [x]
  | y :: ys => if key y < key x then y :: insertSorted key x ys else x :: y :: ys

/-- The lodash sortBy: a stable sort by a numeric iteratee, modelled as
stable insertion sort (each element is inserted, earliest first, before
the elements of strictly greater key — the stability lodash guarantees). -/
def sortByKey (key : InventoryBucket → Int) : List InventoryBucket → List InventoryBucket
  | [] => []
  | x :: xs => insertSorted key x (sortByKey key xs)

/-- The iteration order of the vaultCounts loop (lines 212-215):
sortBy(Object.values(buckets.byType).filter((b) => b.vaultBucket),
(b) => vaultBucketOrder.indexOf(b.vaultBucket!.hash)). -/
def vaultIterationOrder (catalog : List InventoryBucket) : List InventoryBucket :=
  sortByKey vaultSortKey (catalog.filter (fun b => b.vaultBucket.isSome))

/-- The representative bucket stored in a vaultCounts entry: the bucket
itself when accountWide, else the bucket's vaultBucket object (line 219). -/
inductive VaultRepBucket where
  | self : InventoryBucket → VaultRepBucket
  | ref : VaultBucketInfo → VaultRepBucket
deriving DecidableEq

/-- One vault.vaultCounts entry: { count, bucket }. -/
structure VaultCount where
  count : Nat
  bucket : VaultRepBucket
deriving DecidableEq

abbrev VaultCountMap := List (Nat × VaultCount)

def lookupVaultCount : VaultCountMap → Nat → Option VaultCount
  | [], _ => none
  | (k, v) :: rest, x => if k = x then some v else lookupVaultCount rest x

/-- JavaScript object property write: update in place when the key is
present, append when absent. -/
def setVaultCount : VaultCountMap → Nat → VaultCount → VaultCountMap
  | [], k, v => [(k, v)]
  | (k', v') :: rest, k, v =>
    if k' = k then (k, v) :: rest else (k', v') :: setVaultCount rest k v

/-- The body of the vaultCounts loop (lines 215-222):

    const vaultBucketId = bucket.vaultBucket!.hash;
    vault.vaultCounts[vaultBucketId] = vault.vaultCounts[vaultBucketId] ||
      \x7b count: 0, bucket: bucket.accountWide ? bucket : bucket.vaultBucket \x7d;
    vault.vaultCounts[vaultBucketId].count += store.buckets[bucket.hash].length;

store.buckets[bucket.hash] is present for every catalog bucket after the
fill-in step, so the [] default below is never consulted on the loop's
own inputs (the source would throw on an absent key). -/
def addVaultCount (sb : BucketMap) (vc : VaultCountMap) (bucket : InventoryBucket) :
    VaultCountMap :=
  let vaultBucketId := vbHash bucket
  let entry :=
    match lookupVaultCount vc vaultBucketId with
    | some e => e
    | none =>
      { count := 0,
        bucket :=
          if bucket.accountWide then VaultRepBucket.self bucket
          else VaultRepBucket.ref (bucket.vaultBucket.getD junkVaultBucket) }
  setVaultCount vc vaultBucketId
    { count := entry.count + ((lookupBucket sb bucket.hash).getD []).length,
      bucket := entry.bucket }

/-- vault.vaultCounts as computed on lines 203-223 for a store whose
bucket mapping is sb. -/
def computeVaultCounts (catalog : List InventoryBucket) (sb : BucketMap) : VaultCountMap :=
  (vaultIterationOrder catalog).foldl (addVaultCount sb) []

/-- The manifest definitions object; the embedded code only passes it
through to collaborators, so a tag suffices. -/
structure Defs where
  tag : Nat
deriving DecidableEq

/-- One entry of the shared currencies accumulator. -/
structure Currency where
  itemHash : Nat
  quantity : Nat
deriving DecidableEq

/-- The store object returned by makeVault / makeCharacter before
processStore decorates it: the embedded code reads only isVault (via the
isVault type guard); a payload field stands for the rest of the factory
output so that distinct factory results stay distinguishable. -/
structure PreStore where
  isVault : Bool
  payload : Nat
deriving DecidableEq

/-- A processed DIM store: the factory part plus the fields processStore
assigns (items, buckets, and vaultCounts for a vault).  A non-vault store
never receives a vaultCounts assignment; that is modelled as []. -/
structure D1Store where
  pre : PreStore
  items : List D1Item
  buckets : BucketMap
  vaultCounts : VaultCountMap
deriving DecidableEq

/-- The external collaborators of processStore: the store factory
(makeVault / makeCharacter, from d1-store-factory) and the item factory
(processItems, from d1-item-factory) live outside this repository, so
processStore's behaviour is stated for arbitrary implementations.
processItems stands for the awaited result of the item factory. -/
structure Collaborators where
  makeVault : RawStore → List Currency → PreStore × List D1Item
  makeCharacter : RawStore → Defs → Int → List Currency → PreStore × List D1Item
  processItems : PreStore → List D1Item → Defs → List InventoryBucket → List D1Item

/-- processStore on a non-null raw record (d1-stores.ts lines 178-226):
branch on raw.id === "vault" into makeVault, otherwise makeCharacter
(only the character branch receives lastPlayedDate); run the item
factory; group the items by location and fill the missing catalog
buckets; for a vault store, compute vaultCounts. -/
def processStoreCore (C : Collaborators) (raw : RawStore) (defs : Defs)
    (catalog : List InventoryBucket) (currencies : List Currency)
    (lastPlayedDate : Int) : D1Store :=
  let fr :=
    if raw.id = "vault" then C.makeVault raw currencies
    else C.makeCharacter raw defs lastPlayedDate currencies
  let items := C.processItems fr.1 fr.2 defs catalog
  let bmap := fillBuckets items catalog
  { pre := fr.1, items := items, buckets := bmap,
    vaultCounts := if fr.1.isVault then computeVaultCounts catalog bmap else [] }

/-- processStore including the null guard (lines 174-176): a null or
absent raw record is modelled as none and yields undefined. -/
def processStore (C : Collaborators) (raw : Option RawStore) (defs : Defs)
    (catalog : List InventoryBucket) (currencies : List Currency)
    (lastPlayedDate : Int) : Option D1Store :=
  match raw with
  | none => none
  | some r => some (processStoreCore C r defs catalog currencies lastPlayedDate)

/-- The per-record mapping step of loadStores (lines 121-127): the raw
records are mapped through processStore and the undefined results are
dropped by the lodash compact before the conversions are awaited. -/
def processRawStores (C : Collaborators) (raws : List (Option RawStore)) (defs : Defs)
    (catalog : List InventoryBucket) (currencies : List Currency)
    (lastPlayedDate : Int) : List D1Store :=
  (raws.map (fun raw => processStore C raw defs catalog currencies lastPlayedDate)).reduceOption

/-- The catalog buckets whose vaultBucket association is the vault bucket
x (the buckets "mapped to that vault bucket"). -/
def bucketsMappedTo (catalog : List InventoryBucket) (x : Nat) : List InventoryBucket :=
  catalog.filter (fun b => b.vaultBucket.isSome && decide (vbHash b = x))

/-- The number of items a store whose bucket mapping is sb holds, summed
over the buckets mapped to the vault bucket x. -/
def vaultOwnCount (catalog : List InventoryBucket) (sb : BucketMap) (x : Nat) : Nat :=
  ((bucketsMappedTo catalog x).map
    (fun b => ((lookupBucket sb b.hash).getD []).length)).sum

/-- The running total used while reasoning about the vaultCounts fold: the
item count contributed by the buckets of l that the fold books under the
key x (the fold books bucket b under vbHash b). -/
def countSum (sb : BucketMap) (l : List InventoryBucket) (x : Nat) : Nat :=
  ((l.filter (fun b => decide (vbHash b = x))).map
    (fun b => ((lookupBucket sb b.hash).getD []).length)).sum

/-- Following the words of the specification for the vault counts ("count
= total items across all stores mapped to that vault bucket"): the number
of items, summed over every store of the store set, held in buckets whose
vaultBucket association is the vault bucket x.  This definition exists
only to be compared against the code's vaultCounts. -/
def specCountAcrossAllStores (stores : List D1Store) (catalog : List InventoryBucket)
    (x : Nat) : Nat :=
  (stores.map (fun s =>
    ((bucketsMappedTo catalog x).map
      (fun b => ((lookupBucket s.buckets b.hash).getD []).length)).sum)).sum

/-- The slice of application state the load cycle reads and writes: the
published store set (storesSelector / the update action), the transient
notifications (showNotification), the hard error state (the error action)
and the telemetry reports (reportException).  Errors are identified by a
numeric code. -/
structure AppState where
  stores : List D1Store
  notifications : List Nat
  errorState : Option Nat
  telemetry : List Nat
deriving DecidableEq

/-- What happened inside the try-block of one load cycle: the no-account
early return (line 105), a successful load producing a store set, or an
exception thrown during loading or processing. -/
inductive CycleAttempt where
  | noAccount : CycleAttempt
  | ok : List D1Store → CycleAttempt
  | thrown : Nat → CycleAttempt
deriving DecidableEq

/-- One load cycle of loadStores (d1-stores.ts lines 98-158) as a state
transition returning the cycle's resolved value.  A successful cycle
dispatches update(\x7b stores \x7d) and resolves with the stores; the
no-account path resolves with undefined and dispatches nothing; a thrown
exception reaches the catch-block (lines 143-157), which reports it to
telemetry and then, when storesSelector(state) is non-empty, only shows a
transient notification, and otherwise dispatches the hard error action —
in either case the cycle resolves with undefined instead of rethrowing
(the function is total: nothing propagates). -/
def loadStoresCycle (attempt : CycleAttempt) (st : AppState) :
    Option (List D1Store) × AppState :=
  match attempt with
  | .noAccount => (none, st)
  | .ok stores => (some stores, { st with stores := stores })
  | .thrown e =>
    (none,
      if st.stores.length > 0 then
        { st with
            telemetry := st.telemetry ++ [e],
            notifications := st.notifications ++ [e] }
      else
        { st with
            telemetry := st.telemetry ++ [e],
            errorState := some e })

/-- One published result of the stores stream: a store set, or the
explicit no-result marker (the undefined a failed or accountless cycle
resolves with). -/
abbrev CycleResult := Option (List D1Store)

/-- reloadStores (d1-stores.ts lines 80-89) as seen by its subscriber.
storesStream is multicast through publishReplay(1), so the take(2)
subscription opened inside reloadStores first receives the cached last
result when one exists, then the results published after the call, and
toPromise resolves with the last element once take(2) completes.  past
lists the results published before the call (the replay cache is its last
element), future those published after (the forced reload's own result
among them); the promise's value is therefore the second element of the
observed sequence, and none models a promise that never resolves (fewer
than two elements ever observed). -/
def reloadStoresResult (past future : List CycleResult) : Option CycleResult :=
  (past.getLast?.toList ++ future)[1]?

/-- An account, identified by its membership id. -/
structure Account where
  membershipId : Nat
deriving DecidableEq

/-- The state of the store service stream machinery: the BehaviorSubject's
current value (accountStream), whether the ConnectableObservable has been
connected, the pipeline runs issued so far (each recorded with the account
value whose emission triggered it), and how many times connect() actually
activated the stream — a ghost counter: connect() on an already-connected
stream is a no-op and does not increment it. -/
structure ServiceState where
  account : Option Account
  connected : Bool
  runs : List (Option Account)
  activations : Nat
deriving DecidableEq

def initialServiceState : ServiceState :=
  { account := none, connected := false, runs := [], activations := 0 }

/-- accountStream.next(account): the BehaviorSubject stores the value and,
once the derived stream is connected, the emission reaches the
switchMap(() => loadStores()) stage and issues one pipeline run (the
merge with the force-reload trigger passes account emissions through
unchanged). -/
def accountNext (a : Account) (st : ServiceState) : ServiceState :=
  { st with
      account := some a,
      runs := if st.connected then st.runs ++ [some a] else st.runs }

/-- storesStream.connect(): the first call subscribes the multicast
subject to the source, and the BehaviorSubject immediately replays its
current value, issuing one pipeline run; later calls are no-ops
("Repeated calls won't do anything", lines 70-72). -/
def connectStream (st : ServiceState) : ServiceState :=
  if st.connected then st
  else
    { st with
        connected := true,
        runs := st.runs ++ [st.account],
        activations := st.activations + 1 }

/-- getStoresStream(account) (lines 68-74): push the account into the
account stream, then connect the derived stream. -/
def getStoresStream (a : Account) (st : ServiceState) : ServiceState :=
  connectStream (accountNext a st)

/-- A sequence of getStoresStream calls starting from the service's
initial state. -/
def runSubscribeCalls (accounts : List Account) : ServiceState :=
  accounts.foldl (fun st a => getStoresStream a st) initialServiceState

/-- Concrete bucket whose vaultBucket is the Weapons vault bucket, for the
C3 counterexample. -/
def weaponsBucketEx : InventoryBucket :=
  { hash := 10, accountWide := false, vaultBucket := some { hash := 4046403665 } }

/-- Concrete bucket whose vaultBucket is none of the three priority vault
buckets, for the C3 counterexample. -/
def otherBucketEx : InventoryBucket :=
  { hash := 11, accountWide := false, vaultBucket := some { hash := 999 } }

/-- Concrete collaborators for the C4 counterexample: the vault factory
returns no items, the character factory returns three items located in
bucket 1, and the item factory is the identity on the item list. -/
def countCollabEx : Collaborators :=
  { makeVault := fun _ _ => ({ isVault := true, payload := 0 }, []),
    makeCharacter := fun _ _ _ _ =>
      ({ isVault := false, payload := 1 },
       [{ itemId := 1, location := 1 }, { itemId := 2, location := 1 },
        { itemId := 3, location := 1 }]),
    processItems := fun _ items _ _ => items }

/-- Concrete one-bucket catalog for the C4 counterexample: bucket 1 is
mapped to vault bucket 100 and is not accountWide. -/
def countCatalogEx : List InventoryBucket :=
  [{ hash := 1, accountWide := false, vaultBucket := some { hash := 100 } }]

/-- Concrete raw records for the C4 counterexample: the vault record and
one character record. -/
def countRawsEx : List (Option RawStore) :=
  [some { id := "vault", dateLastPlayed := 0 },
   some { id := "char", dateLastPlayed := 0 }]

/-- The store set the C4 counterexample cycle produces. -/
def countStoresEx : List D1Store :=
  processRawStores countCollabEx countRawsEx { tag := 0 } countCatalogEx [] 0

/-- Concrete catalog for the C4 witness: two buckets mapped to the same
vault bucket 100, the first accountWide, with one item each in the vault
store. -/
def vcWitnessCatalog : List InventoryBucket :=
  [{ hash := 1, accountWide := true, vaultBucket := some { hash := 100 } },
   { hash := 2, accountWide := false, vaultBucket := some { hash := 100 } }]

/-- The vault store's bucket mapping for the C4 witness: one item in each
of buckets 1 and 2. -/
def vcWitnessBuckets : BucketMap :=
  [(1, [{ itemId := 1, location := 1 }]), (2, [{ itemId := 2, location := 2 }])]

/-- Concrete catalog for the C5 witness: two buckets, 7 and 8. -/
def fillWitnessCatalog : List InventoryBucket :=
  [{ hash := 7, accountWide := false, vaultBucket := none },
   { hash := 8, accountWide := false, vaultBucket := none }]

/-- Concrete items for the C5 witness: one item in bucket 7, none in 8. -/
def fillWitnessItems : List D1Item :=
  [{ itemId := 1, location := 7 }]

/-- Concrete collaborators for the C10 witness. -/
def vaultCollabEx : Collaborators :=
  { makeVault := fun raw currencies =>
      ({ isVault := true, payload := currencies.length }, [{ itemId := raw.id.length, location := 5 }]),
    makeCharacter := fun raw _ lastPlayedDate _ =>
      ({ isVault := false, payload := lastPlayedDate.toNat }, [{ itemId := raw.id.length, location := 6 }]),
    processItems := fun _ items _ _ => items }

theorem findLastPlayedDate_foldl_eq (l : List RawStore) : ∀ s : Int,
    l.foldl
      (fun memo rawStore =>
        if rawStore.id = "vault" then memo
        else if rawStore.dateLastPlayed ≥ memo then rawStore.dateLastPlayed else memo)
      s =
    (match maxCharacterDate l with
     | none => s
     | some m => max s m) := by
  induction l with
  | nil => intro s; simp [maxCharacterDate]
  | cons r t ih =>
    intro s
    by_cases hv : r.id = "vault"
    · simp only [List.foldl_cons, hv, if_pos rfl, maxCharacterDate, if_pos hv]
      exact ih s
    · have hstep :
        (if r.id = "vault" then s
         else if r.dateLastPlayed ≥ s then r.dateLastPlayed else s) = max s r.dateLastPlayed := by
        rw [if_neg hv]
        by_cases h : s ≤ r.dateLastPlayed
        · rw [if_pos (ge_iff_le.mpr h), max_eq_right h]
        · have h' : r.dateLastPlayed ≤ s := le_of_not_le h
          rw [if_neg (fun hge => h (ge_iff_le.mp hge)), max_eq_left h']
      simp only [List.foldl_cons, hstep, maxCharacterDate, if_neg hv]
      rw [ih (max s r.dateLastPlayed)]
      rcases hmt : maxCharacterDate t with _ | m <;> simp [hmt, max_assoc]

theorem findLastPlayedDate_eq_max (l : List RawStore) :
    findLastPlayedDate l = max 0 ((maxCharacterDate l).getD 0) := by
  unfold findLastPlayedDate
  rw [findLastPlayedDate_foldl_eq l 0]
  cases h : maxCharacterDate l with
  | none => simp
  | some m => simp

theorem maxCharacterDate_filter (l : List RawStore) :
    maxCharacterDate (l.filter (fun r => r.id ≠ "vault")) = maxCharacterDate l := by
  induction l with
  | nil => rfl
  | cons r t ih =>
    by_cases hv : r.id = "vault"
    · rw [List.filter_cons, if_neg (by simp [hv]), ih]
      conv_rhs => rw [maxCharacterDate]
      rw [if_pos hv]
    · rw [List.filter_cons, if_pos (by simp [hv])]
      conv_lhs => rw [maxCharacterDate]
      conv_rhs => rw [maxCharacterDate]
      rw [if_neg hv, if_neg hv, ih]

/-- Claim C2 counterexample: for the single character record with
`dateLastPlayed = -5` (five milliseconds before the epoch), the code
returns the epoch (0), not the maximum `dateLastPlayed` among the
character records (-5): the epoch seed participates in the maximum. -/
theorem findLastPlayedDate_not_charMax :
    findLastPlayedDate [{ id := "c1", dateLastPlayed := -5 }] = 0 ∧
    maxCharacterDate [{ id := "c1", dateLastPlayed := -5 }] = some (-5) ∧
    (0 : Int) ≠ -5 := by
  refine ⟨by decide, by decide, by decide⟩

/-- Claim C2 (amended): for every list of raw store records, the computed
lastPlayedDate equals the maximum of the epoch and the dateLastPlayed
values of the character records; the vault-tagged record never
participates in the maximum; and if the list contains no character
records, the result is the epoch. -/
theorem findLastPlayedDate_amended (l : List RawStore) :
    findLastPlayedDate l = max 0 ((maxCharacterDate l).getD 0) ∧
    findLastPlayedDate l = findLastPlayedDate (l.filter (fun r => r.id ≠ "vault")) ∧
    (maxCharacterDate l = none → findLastPlayedDate l = 0) := by
  refine ⟨findLastPlayedDate_eq_max l, ?_, ?_⟩
  · rw [findLastPlayedDate_eq_max l, findLastPlayedDate_eq_max, maxCharacterDate_filter]
  · intro h
    rw [findLastPlayedDate_eq_max l, h]
    simp

/-- Claim C2 witness: the amended statement evaluated on a concrete input
with one vault record and two characters. -/
theorem findLastPlayedDate_amended_witness :
    maxCharacterDate [{ id := "vault", dateLastPlayed := 9 }] = none ∧
    findLastPlayedDate [{ id := "vault", dateLastPlayed := 9 }] = 0 := by
  exact ⟨by decide, (findLastPlayedDate_amended _).2.2 (by decide)⟩

/-- Claim C9: findLastPlayedDate never returns a date earlier than the
epoch; the epoch seed participates in the maximum, so the result equals
the maximum of the epoch and all the character dates. -/
theorem findLastPlayedDate_clamped (l : List RawStore) :
    0 ≤ findLastPlayedDate l ∧
    findLastPlayedDate l = max 0 ((maxCharacterDate l).getD 0) := by
  constructor
  · rw [findLastPlayedDate_eq_max l]
    exact le_max_left _ _
  · exact findLastPlayedDate_eq_max l

/-- Claim C1: when an exception is thrown during loading or processing,
the catch at the cycle boundary makes the cycle resolve with no result
(undefined) instead of propagating; when the previously published store
set is non-empty only a transient notification is issued and the
published store set and hard error state are left unchanged, and when the
published store set is empty (nothing has ever loaded) a hard error state
is dispatched instead, with no transient notification. -/
theorem loadStores_swallows_errors (e : Nat) (st : AppState) :
    (loadStoresCycle (.thrown e) st).1 = none ∧
    (loadStoresCycle (.thrown e) st).2.stores = st.stores ∧
    (loadStoresCycle (.thrown e) st).2.notifications =
      (if st.stores.length > 0 then st.notifications ++ [e] else st.notifications) ∧
    (loadStoresCycle (.thrown e) st).2.errorState =
      (if st.stores.length > 0 then st.errorState else some e) := by
  by_cases h : st.stores.length > 0 <;>
    simp [loadStoresCycle, h]

/-- Claim C6: processStore returns undefined for every null or absent raw
record, and the published store set of a cycle is exactly the image of
the non-null raw records — the null ones are silently dropped by the
compact step, producing no entry and no error. -/
theorem processStore_drops_null (C : Collaborators) (raws : List (Option RawStore))
    (defs : Defs) (catalog : List InventoryBucket) (currencies : List Currency)
    (lastPlayedDate : Int) :
    processStore C none defs catalog currencies lastPlayedDate = none ∧
    processRawStores C raws defs catalog currencies lastPlayedDate =
      raws.reduceOption.map
        (fun r => processStoreCore C r defs catalog currencies lastPlayedDate) := by
  refine ⟨rfl, ?_⟩
  induction raws with
  | nil => rfl
  | cons raw rest ih =>
    cases raw with
    | none =>
      simpa [processRawStores, processStore, List.reduceOption_cons_of_none] using ih
    | some r =>
      simp only [processRawStores, List.map_cons, processStore,
        List.reduceOption_cons_of_some, List.map] at ih ⊢
      rw [ih]
      simp [List.reduceOption]

/-- Claim C10: for a vault-tagged raw record the output of processStore is
independent of the lastPlayedDate argument, for every implementation of
the store and item factories: the vault construction path never reads
lastPlayedDate. -/
theorem processStore_vault_ignores_lastPlayed (C : Collaborators) (raw : RawStore)
    (defs : Defs) (catalog : List InventoryBucket) (currencies : List Currency)
    (d1 d2 : Int) (h : raw.id = "vault") :
    processStore C (some raw) defs catalog currencies d1 =
      processStore C (some raw) defs catalog currencies d2 := by
  simp [processStore, processStoreCore, h]

/-- Claim C10 witness: the theorem evaluated at a concrete vault record
and concrete collaborators, with lastPlayedDate 0 against 1. -/
theorem processStore_vault_ignores_lastPlayed_witness :
    processStore vaultCollabEx (some { id := "vault", dateLastPlayed := 3 })
        { tag := 0 } [] [] 0 =
      processStore vaultCollabEx (some { id := "vault", dateLastPlayed := 3 })
        { tag := 0 } [] [] 1 :=
  processStore_vault_ignores_lastPlayed vaultCollabEx
    { id := "vault", dateLastPlayed := 3 } { tag := 0 } [] [] 0 1 rfl

/-- Claim C7: whenever the promise returned by reloadStores resolves, its
value is one of the results published after the call — never the value
the replaying stream had cached before the call — whether that value is a
store set or the explicit no-result marker. -/
theorem reloadStores_resolves_fresh (past future : List CycleResult) (r : CycleResult)
    (h : reloadStoresResult past future = some r) : r ∈ future := by
  unfold reloadStoresResult at h
  cases hp : past.getLast? with
  | none =>
    rw [hp] at h
    simp only [Option.toList_none, List.nil_append] at h
    exact List.getElem?_mem h
  | some c =>
    rw [hp] at h
    simp only [Option.toList_some, List.cons_append, List.getElem?_cons_succ] at h
    exact List.getElem?_mem h

/-- Claim C7 witness: with a cached store set before the call and the
no-result marker published after it, the promise resolves with the
post-call marker, which indeed lies among the post-call results. -/
theorem reloadStores_resolves_fresh_witness :
    reloadStoresResult [some []] [none] = some none ∧
    (none : CycleResult) ∈ [(none : CycleResult)] :=
  ⟨rfl, reloadStores_resolves_fresh [some []] [none] none rfl⟩

theorem subscribeCalls_connected_aux (as : List Account) : ∀ st : ServiceState,
    st.connected = true →
    (as.foldl (fun st a => getStoresStream a st) st).connected = true ∧
    (as.foldl (fun st a => getStoresStream a st) st).activations = st.activations ∧
    (as.foldl (fun st a => getStoresStream a st) st).runs.length =
      st.runs.length + as.length := by
  induction as with
  | nil => intro st h; exact ⟨h, rfl, rfl⟩
  | cons a rest ih =>
    intro st h
    have hstep : getStoresStream a st =
        { st with account := some a, runs := st.runs ++ [some a] } := by
      simp [getStoresStream, accountNext, connectStream, h]
    simp only [List.foldl_cons, hstep]
    have := ih { st with account := some a, runs := st.runs ++ [some a] } (by simp [h])
    refine ⟨this.1, this.2.1, ?_⟩
    rw [this.2.2]
    simp [List.length_append]
    omega

/-- Claim C8: a sequence of getStoresStream calls issues exactly one
pipeline run per call — runs are not deduplicated even when successive
calls pass an equal account, since the run count equals the call count
for every account list — and the stream is activated by the first call
exactly once, with repeated calls never re-activating it. -/
theorem getStoresStream_one_run_per_call (accounts : List Account) :
    (runSubscribeCalls accounts).runs.length = accounts.length ∧
    (runSubscribeCalls accounts).activations = (if accounts.isEmpty then 0 else 1) ∧
    (runSubscribeCalls accounts).connected = !accounts.isEmpty := by
  cases accounts with
  | nil => refine ⟨rfl, rfl, rfl⟩
  | cons a rest =>
    have hfirst : getStoresStream a initialServiceState =
        { account := some a, connected := true, runs := [some a], activations := 1 } := by
      simp [getStoresStream, accountNext, connectStream, initialServiceState]
    have h := subscribeCalls_connected_aux rest
      { account := some a, connected := true, runs := [some a], activations := 1 } rfl
    unfold runSubscribeCalls
    simp only [List.foldl_cons, hfirst]
    refine ⟨?_, ?_, ?_⟩
    · rw [h.2.2]; simp; omega
    · rw [h.2.1]; simp
    · rw [h.1]; simp

theorem insertSorted_append_of_lt (key : InventoryBucket → Int) (x : InventoryBucket)
    (B : List InventoryBucket) : ∀ A : List InventoryBucket, (∀ a ∈ A, key a < key x) →
    insertSorted key x (A ++ B) = A ++ insertSorted key x B := by
  intro A
  induction A with
  | nil => intro _; rfl
  | cons a A ih =>
    intro hA
    have hx : key a < key x := hA a (List.mem_cons_self a A)
    have hrec := ih (fun b hb => hA b (List.mem_cons_of_mem a hb))
    rw [List.cons_append]
    show (if key a < key x then a :: insertSorted key x (A ++ B)
          else x :: a :: (A ++ B)) = (a :: A) ++ insertSorted key x B
    rw [if_pos hx, hrec, List.cons_append]

theorem insertSorted_of_not_lt (key : InventoryBucket → Int) (x : InventoryBucket)
    (B : List InventoryBucket) (hB : ∀ b ∈ B, ¬ key b < key x) :
    insertSorted key x B = x :: B := by
  cases B with
  | nil => rfl
  | cons b B =>
    show (if key b < key x then b :: insertSorted key x B else x :: b :: B) = x :: b :: B
    rw [if_neg (hB b (List.mem_cons_self b B))]

theorem insertSorted_perm (key : InventoryBucket → Int) (x : InventoryBucket)
    (l : List InventoryBucket) : List.Perm (insertSorted key x l) (x :: l) := by
  induction l with
  | nil => exact List.Perm.refl _
  | cons y ys ih =>
    by_cases h : key y < key x
    · show List.Perm (if key y < key x then y :: insertSorted key x ys else x :: y :: ys) _
      rw [if_pos h]
      exact (ih.cons y).trans (List.Perm.swap x y ys)
    · show List.Perm (if key y < key x then y :: insertSorted key x ys else x :: y :: ys) _
      rw [if_neg h]

theorem sortByKey_perm (key : InventoryBucket → Int) (l : List InventoryBucket) :
    List.Perm (sortByKey key l) l := by
  induction l with
  | nil => exact List.Perm.refl _
  | cons x xs ih =>
    exact (insertSorted_perm key x (sortByKey key xs)).trans (ih.cons x)

theorem jsIndexOf_vaultOrder (x : Nat) :
    jsIndexOf vaultBucketOrder x =
      if x = 4046403665 then 0
      else if x = 3003523923 then 1
      else if x = 138197802 then 2
      else -1 := by
  by_cases h1 : x = 4046403665
  · subst h1; rfl
  · by_cases h2 : x = 3003523923
    · subst h2; rfl
    · by_cases h3 : x = 138197802
      · subst h3; rfl
      · have h1' : ¬ ((4046403665 : Nat) = x) := fun e => h1 e.symm
        have h2' : ¬ ((3003523923 : Nat) = x) := fun e => h2 e.symm
        have h3' : ¬ ((138197802 : Nat) = x) := fun e => h3 e.symm
        simp [jsIndexOf, vaultBucketOrder, h1, h2, h3, h1', h2', h3']

theorem vaultSortKey_cases (b : InventoryBucket) :
    (vaultSortKey b = 0 ↔ vbHash b = 4046403665) ∧
    (vaultSortKey b = 1 ↔ vbHash b = 3003523923) ∧
    (vaultSortKey b = 2 ↔ vbHash b = 138197802) ∧
    (vaultSortKey b = -1 ↔
      (vbHash b ≠ 4046403665 ∧ vbHash b ≠ 3003523923 ∧ vbHash b ≠ 138197802)) := by
  unfold vaultSortKey
  rw [jsIndexOf_vaultOrder (vbHash b)]
  split_ifs with h1 h2 h3 <;> simp [*]

theorem vaultSortKey_range (b : InventoryBucket) :
    vaultSortKey b = -1 ∨ vaultSortKey b = 0 ∨ vaultSortKey b = 1 ∨ vaultSortKey b = 2 := by
  obtain ⟨c0, c1, c2, cm⟩ := vaultSortKey_cases b
  by_cases h1 : vbHash b = 4046403665
  · exact Or.inr (Or.inl (c0.mpr h1))
  · by_cases h2 : vbHash b = 3003523923
    · exact Or.inr (Or.inr (Or.inl (c1.mpr h2)))
    · by_cases h3 : vbHash b = 138197802
      · exact Or.inr (Or.inr (Or.inr (c2.mpr h3)))
      · exact Or.inl (cm.mpr ⟨h1, h2, h3⟩)

theorem sortByKey_filters (key : InventoryBucket → Int) (l : List InventoryBucket)
    (h : ∀ x ∈ l, key x = -1 ∨ key x = 0 ∨ key x = 1 ∨ key x = 2) :
    sortByKey key l =
      l.filter (fun b => decide (key b = -1)) ++ l.filter (fun b => decide (key b = 0)) ++
        l.filter (fun b => decide (key b = 1)) ++ l.filter (fun b => decide (key b = 2)) := by
  induction l with
  | nil => rfl
  | cons x xs ih =>
    have hxs : ∀ y ∈ xs, key y = -1 ∨ key y = 0 ∨ key y = 1 ∨ key y = 2 :=
      fun y hy => h y (List.mem_cons_of_mem x hy)
    have hmem : ∀ (k : Int) (b : InventoryBucket),
        b ∈ xs.filter (fun b => decide (key b = k)) → key b = k := by
      intro k b hb
      exact of_decide_eq_true (List.mem_filter.mp hb).2
    show insertSorted key x (sortByKey key xs) = _
    rw [ih hxs]
    rcases h x (List.mem_cons_self x xs) with hx | hx | hx | hx
    · have hnot : ∀ b ∈ xs.filter (fun b => decide (key b = -1)) ++
            xs.filter (fun b => decide (key b = 0)) ++
            xs.filter (fun b => decide (key b = 1)) ++
            xs.filter (fun b => decide (key b = 2)), ¬ key b < key x := by
        intro b hb
        rcases List.mem_append.mp hb with hb' | hb'
        · rcases List.mem_append.mp hb' with hb'' | hb''
          · rcases List.mem_append.mp hb'' with h4 | h4
            · have := hmem _ _ h4; omega
            · have := hmem _ _ h4; omega
          · have := hmem _ _ hb''; omega
        · have := hmem _ _ hb'; omega
      rw [insertSorted_of_not_lt key x _ hnot]
      have e1 : (x :: xs).filter (fun b => decide (key b = -1)) =
          x :: xs.filter (fun b => decide (key b = -1)) := by
        simp [List.filter_cons, hx]
      have e2 : (x :: xs).filter (fun b => decide (key b = 0)) =
          xs.filter (fun b => decide (key b = 0)) := by
        simp [List.filter_cons, hx]
      have e3 : (x :: xs).filter (fun b => decide (key b = 1)) =
          xs.filter (fun b => decide (key b = 1)) := by
        simp [List.filter_cons, hx]
      have e4 : (x :: xs).filter (fun b => decide (key b = 2)) =
          xs.filter (fun b => decide (key b = 2)) := by
        simp [List.filter_cons, hx]
      rw [e1, e2, e3, e4]
      simp
    · have hassoc : xs.filter (fun b => decide (key b = -1)) ++
            xs.filter (fun b => decide (key b = 0)) ++
            xs.filter (fun b => decide (key b = 1)) ++
            xs.filter (fun b => decide (key b = 2)) =
          xs.filter (fun b => decide (key b = -1)) ++
            (xs.filter (fun b => decide (key b = 0)) ++
              xs.filter (fun b => decide (key b = 1)) ++
              xs.filter (fun b => decide (key b = 2))) := by
        simp [List.append_assoc]
      rw [hassoc]
      have hlt : ∀ a ∈ xs.filter (fun b => decide (key b = -1)), key a < key x := by
        intro a ha
        have := hmem _ _ ha; omega
      rw [insertSorted_append_of_lt key x _ _ hlt]
      have hnot : ∀ b ∈ xs.filter (fun b => decide (key b = 0)) ++
            xs.filter (fun b => decide (key b = 1)) ++
            xs.filter (fun b => decide (key b = 2)), ¬ key b < key x := by
        intro b hb
        rcases List.mem_append.mp hb with hb' | hb'
        · rcases List.mem_append.mp hb' with hb'' | hb''
          · have := hmem _ _ hb''; omega
          · have := hmem _ _ hb''; omega
        · have := hmem _ _ hb'; omega
      rw [insertSorted_of_not_lt key x _ hnot]
      have e1 : (x :: xs).filter (fun b => decide (key b = -1)) =
          xs.filter (fun b => decide (key b = -1)) := by
        simp [List.filter_cons, hx]
      have e2 : (x :: xs).filter (fun b => decide (key b = 0)) =
          x :: xs.filter (fun b => decide (key b = 0)) := by
        simp [List.filter_cons, hx]
      have e3 : (x :: xs).filter (fun b => decide (key b = 1)) =
          xs.filter (fun b => decide (key b = 1)) := by
        simp [List.filter_cons, hx]
      have e4 : (x :: xs).filter (fun b => decide (key b = 2)) =
          xs.filter (fun b => decide (key b = 2)) := by
        simp [List.filter_cons, hx]
      rw [e1, e2, e3, e4]
      simp [List.append_assoc]
    · have hassoc : xs.filter (fun b => decide (key b = -1)) ++
            xs.filter (fun b => decide (key b = 0)) ++
            xs.filter (fun b => decide (key b = 1)) ++
            xs.filter (fun b => decide (key b = 2)) =
          (xs.filter (fun b => decide (key b = -1)) ++
            xs.filter (fun b => decide (key b = 0))) ++
            (xs.filter (fun b => decide (key b = 1)) ++
              xs.filter (fun b => decide (key b = 2))) := by
        simp [List.append_assoc]
      rw [hassoc]
      have hlt : ∀ a ∈ xs.filter (fun b => decide (key b = -1)) ++
          xs.filter (fun b => decide (key b = 0)), key a < key x := by
        intro a ha
        rcases List.mem_append.mp ha with ha' | ha'
        · have := hmem _ _ ha'; omega
        · have := hmem _ _ ha'; omega
      rw [insertSorted_append_of_lt key x _ _ hlt]
      have hnot : ∀ b ∈ xs.filter (fun b => decide (key b = 1)) ++
          xs.filter (fun b => decide (key b = 2)), ¬ key b < key x := by
        intro b hb
        rcases List.mem_append.mp hb with hb' | hb'
        · have := hmem _ _ hb'; omega
        · have := hmem _ _ hb'; omega
      rw [insertSorted_of_not_lt key x _ hnot]
      have e1 : (x :: xs).filter (fun b => decide (key b = -1)) =
          xs.filter (fun b => decide (key b = -1)) := by
        simp [List.filter_cons, hx]
      have e2 : (x :: xs).filter (fun b => decide (key b = 0)) =
          xs.filter (fun b => decide (key b = 0)) := by
        simp [List.filter_cons, hx]
      have e3 : (x :: xs).filter (fun b => decide (key b = 1)) =
          x :: xs.filter (fun b => decide (key b = 1)) := by
        simp [List.filter_cons, hx]
      have e4 : (x :: xs).filter (fun b => decide (key b = 2)) =
          xs.filter (fun b => decide (key b = 2)) := by
        simp [List.filter_cons, hx]
      rw [e1, e2, e3, e4]
      simp [List.append_assoc]
    · have hlt : ∀ a ∈ xs.filter (fun b => decide (key b = -1)) ++
          xs.filter (fun b => decide (key b = 0)) ++
          xs.filter (fun b => decide (key b = 1)), key a < key x := by
        intro a ha
        rcases List.mem_append.mp ha with ha' | ha'
        · rcases List.mem_append.mp ha' with ha'' | ha''
          · have := hmem _ _ ha''; omega
          · have := hmem _ _ ha''; omega
        · have := hmem _ _ ha'; omega
      rw [insertSorted_append_of_lt key x _ _ hlt]
      have hnot : ∀ b ∈ xs.filter (fun b => decide (key b = 2)), ¬ key b < key x := by
        intro b hb
        have := hmem _ _ hb; omega
      rw [insertSorted_of_not_lt key x _ hnot]
      have e1 : (x :: xs).filter (fun b => decide (key b = -1)) =
          xs.filter (fun b => decide (key b = -1)) := by
        simp [List.filter_cons, hx]
      have e2 : (x :: xs).filter (fun b => decide (key b = 0)) =
          xs.filter (fun b => decide (key b = 0)) := by
        simp [List.filter_cons, hx]
      have e3 : (x :: xs).filter (fun b => decide (key b = 1)) =
          xs.filter (fun b => decide (key b = 1)) := by
        simp [List.filter_cons, hx]
      have e4 : (x :: xs).filter (fun b => decide (key b = 2)) =
          x :: xs.filter (fun b => decide (key b = 2)) := by
        simp [List.filter_cons, hx]
      rw [e1, e2, e3, e4]

/-- Claim C3 counterexample: for a catalog holding a Weapons-mapped bucket
followed by a bucket mapped to a vault bucket outside the priority list
(hash 999), the iteration order puts the unlisted bucket FIRST, not after
the priority buckets: indexOf yields -1 for it, and -1 sorts before the
priority keys 0, 1, 2. -/
theorem vaultIterationOrder_cex :
    vaultIterationOrder [weaponsBucketEx, otherBucketEx] =
      [otherBucketEx, weaponsBucketEx] ∧
    vaultIterationOrder [weaponsBucketEx, otherBucketEx] ≠
      [weaponsBucketEx, otherBucketEx] ∧
    vbHash otherBucketEx ∉ vaultBucketOrder := by
  refine ⟨by decide, by decide, by decide⟩

/-- Claim C3 (amended): when computing vaultCounts, the buckets that
declare a vaultBucket association are iterated with the buckets whose
vault bucket is NOT one of Weapons (4046403665), Armor (3003523923) or
General (138197802) coming FIRST in catalog order, followed by the
Weapons-mapped buckets, then the Armor-mapped ones, then the General-mapped
ones, each group in catalog order (the indexOf sort key is -1 for
unlisted vault buckets, which sorts before the priority keys 0, 1, 2). -/
theorem vaultIterationOrder_amended (catalog : List InventoryBucket) :
    vaultIterationOrder catalog =
      (catalog.filter (fun b => b.vaultBucket.isSome)).filter
          (fun b => decide (vbHash b ≠ 4046403665 ∧ vbHash b ≠ 3003523923 ∧
            vbHash b ≠ 138197802)) ++
        (catalog.filter (fun b => b.vaultBucket.isSome)).filter
          (fun b => decide (vbHash b = 4046403665)) ++
        (catalog.filter (fun b => b.vaultBucket.isSome)).filter
          (fun b => decide (vbHash b = 3003523923)) ++
        (catalog.filter (fun b => b.vaultBucket.isSome)).filter
          (fun b => decide (vbHash b = 138197802)) := by
  unfold vaultIterationOrder
  rw [sortByKey_filters vaultSortKey _ (fun b _ => vaultSortKey_range b)]
  have em : (catalog.filter (fun b => b.vaultBucket.isSome)).filter
        (fun b => decide (vaultSortKey b = -1)) =
      (catalog.filter (fun b => b.vaultBucket.isSome)).filter
        (fun b => decide (vbHash b ≠ 4046403665 ∧ vbHash b ≠ 3003523923 ∧
          vbHash b ≠ 138197802)) :=
    List.filter_congr (fun b _ => decide_eq_decide.mpr (vaultSortKey_cases b).2.2.2)
  have e0 : (catalog.filter (fun b => b.vaultBucket.isSome)).filter
        (fun b => decide (vaultSortKey b = 0)) =
      (catalog.filter (fun b => b.vaultBucket.isSome)).filter
        (fun b => decide (vbHash b = 4046403665)) :=
    List.filter_congr (fun b _ => decide_eq_decide.mpr (vaultSortKey_cases b).1)
  have e1 : (catalog.filter (fun b => b.vaultBucket.isSome)).filter
        (fun b => decide (vaultSortKey b = 1)) =
      (catalog.filter (fun b => b.vaultBucket.isSome)).filter
        (fun b => decide (vbHash b = 3003523923)) :=
    List.filter_congr (fun b _ => decide_eq_decide.mpr (vaultSortKey_cases b).2.1)
  have e2 : (catalog.filter (fun b => b.vaultBucket.isSome)).filter
        (fun b => decide (vaultSortKey b = 2)) =
      (catalog.filter (fun b => b.vaultBucket.isSome)).filter
        (fun b => decide (vbHash b = 138197802)) :=
    List.filter_congr (fun b _ => decide_eq_decide.mpr (vaultSortKey_cases b).2.2.1)
  rw [em, e0, e1, e2]

theorem lookupVaultCount_set (m : VaultCountMap) (k : Nat) (v : VaultCount) (x : Nat) :
    lookupVaultCount (setVaultCount m k v) x =
      if k = x then some v else lookupVaultCount m x := by
  induction m with
  | nil =>
    show lookupVaultCount [(k, v)] x = _
    by_cases h : k = x <;> simp [lookupVaultCount, h]
  | cons p rest ih =>
    obtain ⟨k0, v0⟩ := p
    show lookupVaultCount
        (if k0 = k then (k, v) :: rest else (k0, v0) :: setVaultCount rest k v) x = _
    by_cases h0 : k0 = k
    · rw [if_pos h0]
      by_cases h : k = x
      · simp [lookupVaultCount, h]
      · have h0x : ¬ k0 = x := by rw [h0]; exact h
        simp [lookupVaultCount, h, h0x]
    · rw [if_neg h0]
      by_cases h1 : k0 = x
      · have hkx : ¬ k = x := fun e => h0 (h1.trans e.symm)
        simp [lookupVaultCount, h1, hkx]
      · simp only [lookupVaultCount, if_neg h1]
        rw [ih]

theorem countSum_nil (sb : BucketMap) (x : Nat) : countSum sb [] x = 0 := rfl

theorem countSum_cons (sb : BucketMap) (b : InventoryBucket) (l : List InventoryBucket)
    (x : Nat) :
    countSum sb (b :: l) x =
      (if vbHash b = x then ((lookupBucket sb b.hash).getD []).length else 0) +
        countSum sb l x := by
  by_cases h : vbHash b = x <;>
    simp [countSum, List.filter_cons, h]

theorem foldAddVaultCount_lookup (sb : BucketMap) (x : Nat) :
    ∀ (l : List InventoryBucket) (acc : VaultCountMap),
    lookupVaultCount (l.foldl (addVaultCount sb) acc) x =
      match lookupVaultCount acc x with
      | some e => some { count := e.count + countSum sb l x, bucket := e.bucket }
      | none =>
        match l.find? (fun b => decide (vbHash b = x)) with
        | none => none
        | some b0 =>
          some { count := countSum sb l x,
                 bucket :=
                   if b0.accountWide then VaultRepBucket.self b0
                   else VaultRepBucket.ref (b0.vaultBucket.getD junkVaultBucket) } := by
  intro l
  induction l with
  | nil =>
    intro acc
    cases h : lookupVaultCount acc x with
    | none => simp [List.foldl_nil, h]
    | some e => simp [List.foldl_nil, h, countSum_nil]
  | cons b l ih =>
    intro acc
    rw [List.foldl_cons, ih (addVaultCount sb acc b)]
    have hacc : lookupVaultCount (addVaultCount sb acc b) x =
        if vbHash b = x
        then some { count :=
                      (match lookupVaultCount acc (vbHash b) with
                       | some e => e
                       | none =>
                         { count := 0,
                           bucket :=
                             if b.accountWide then VaultRepBucket.self b
                             else VaultRepBucket.ref
                               (b.vaultBucket.getD junkVaultBucket) }).count +
                      ((lookupBucket sb b.hash).getD []).length,
                    bucket :=
                      (match lookupVaultCount acc (vbHash b) with
                       | some e => e
                       | none =>
                         { count := 0,
                           bucket :=
                             if b.accountWide then VaultRepBucket.self b
                             else VaultRepBucket.ref
                               (b.vaultBucket.getD junkVaultBucket) }).bucket }
        else lookupVaultCount acc x := by
      show lookupVaultCount (setVaultCount acc (vbHash b) _) x = _
      rw [lookupVaultCount_set]
    by_cases hvx : vbHash b = x
    · rw [hacc, if_pos hvx, hvx]
      cases hae : lookupVaultCount acc x with
      | some e =>
        simp only [hae, countSum_cons, if_pos hvx]
        rw [Nat.add_assoc]
      | none =>
        have hfind : (b :: l).find? (fun b => decide (vbHash b = x)) = some b := by
          simp [List.find?_cons, hvx]
        simp only [hae, hfind, countSum_cons, if_pos hvx]
        rw [Nat.zero_add]
    · rw [hacc, if_neg hvx]
      have hfind : (b :: l).find? (fun b => decide (vbHash b = x)) =
          l.find? (fun b => decide (vbHash b = x)) := by
        simp [List.find?_cons, hvx]
      rw [hfind, countSum_cons, if_neg hvx, Nat.zero_add]

theorem countSum_perm (sb : BucketMap) (x : Nat) (l1 l2 : List InventoryBucket)
    (h : List.Perm l1 l2) : countSum sb l1 x = countSum sb l2 x := by
  unfold countSum
  exact ((h.filter _).map _).sum_eq

theorem mem_vaultIterationOrder (catalog : List InventoryBucket) (b : InventoryBucket) :
    b ∈ vaultIterationOrder catalog ↔
      b ∈ catalog.filter (fun b => b.vaultBucket.isSome) :=
  (sortByKey_perm vaultSortKey _).mem_iff

theorem countSum_eq_vaultOwnCount (catalog : List InventoryBucket) (sb : BucketMap)
    (x : Nat) :
    countSum sb (vaultIterationOrder catalog) x = vaultOwnCount catalog sb x := by
  have hp : List.Perm (vaultIterationOrder catalog)
      (catalog.filter (fun b => b.vaultBucket.isSome)) :=
    sortByKey_perm vaultSortKey _
  rw [countSum_perm sb x _ _ hp]
  unfold countSum vaultOwnCount bucketsMappedTo
  rw [List.filter_filter]
  have hc : ∀ a ∈ catalog,
      (decide (vbHash a = x) && a.vaultBucket.isSome) =
        (a.vaultBucket.isSome && decide (vbHash a = x)) :=
    fun a _ => Bool.and_comm _ _
  rw [List.filter_congr hc]

theorem find?_vaultIterationOrder_none (catalog : List InventoryBucket) (x : Nat) :
    ((vaultIterationOrder catalog).find? (fun b => decide (vbHash b = x)) = none) ↔
      bucketsMappedTo catalog x = [] := by
  rw [List.find?_eq_none]
  constructor
  · intro h
    unfold bucketsMappedTo
    rw [List.filter_eq_nil_iff]
    intro a ha hcontra
    have h1 : a.vaultBucket.isSome = true ∧ vbHash a = x := by
      simpa using hcontra
    have hmem : a ∈ vaultIterationOrder catalog :=
      (mem_vaultIterationOrder _ _).mpr (List.mem_filter.mpr ⟨ha, h1.1⟩)
    exact h a hmem (by simpa using h1.2)
  · intro h b hb hpb
    have hb' := (mem_vaultIterationOrder _ _).mp hb
    obtain ⟨hbc, hbs⟩ := List.mem_filter.mp hb'
    have hmem : b ∈ bucketsMappedTo catalog x :=
      List.mem_filter.mpr ⟨hbc, by simp [hbs, of_decide_eq_true hpb]⟩
    rw [h] at hmem
    exact absurd hmem (List.not_mem_nil b)

/-- Claim C4 counterexample: the cycle produced from one empty vault
record and one character record holding three items in bucket 1 (which is
mapped to vault bucket 100) publishes a vault store whose vaultCounts
entry for 100 has count 0 — the character store's three items never
contribute — while the total number of items across all stores mapped to
vault bucket 100 (the specification's words) is 3. -/
theorem vaultCounts_not_across_stores :
    countStoresEx.map (fun s => lookupVaultCount s.vaultCounts 100) =
      [some { count := 0, bucket := VaultRepBucket.ref { hash := 100 } }, none] ∧
    specCountAcrossAllStores countStoresEx countCatalogEx 100 = 3 ∧
    (0 : Nat) ≠ 3 := by
  refine ⟨by decide, by decide, by decide⟩

/-- Claim C4 (amended): in a processed vault store, vaultCounts contains
an entry exactly for the vault-bucket identifiers declared by some
catalog bucket's vaultBucket association; the count recorded for a vault
bucket equals the total number of items across the VAULT STORE'S OWN
buckets mapped to that vault bucket (items held by the other stores do
not contribute); and the representative bucket stored with the count
comes from the first bucket in iteration order mapped to that vault
bucket: that bucket itself when it is accountWide, otherwise its
associated vaultBucket. -/
theorem vaultCounts_amended (catalog : List InventoryBucket) (sb : BucketMap) (x : Nat) :
    (lookupVaultCount (computeVaultCounts catalog sb) x = none ↔
      bucketsMappedTo catalog x = []) ∧
    (∀ e, lookupVaultCount (computeVaultCounts catalog sb) x = some e →
      e.count = vaultOwnCount catalog sb x ∧
      ∃ b0, (vaultIterationOrder catalog).find? (fun b => decide (vbHash b = x)) =
          some b0 ∧
        e.bucket = (if b0.accountWide then VaultRepBucket.self b0
                    else VaultRepBucket.ref (b0.vaultBucket.getD junkVaultBucket))) := by
  have hfold := foldAddVaultCount_lookup sb x (vaultIterationOrder catalog) []
  have hnil : lookupVaultCount ([] : VaultCountMap) x = none := rfl
  rw [hnil] at hfold
  have hmain : lookupVaultCount (computeVaultCounts catalog sb) x =
      match (vaultIterationOrder catalog).find? (fun b => decide (vbHash b = x)) with
      | none => none
      | some b0 =>
        some { count := countSum sb (vaultIterationOrder catalog) x,
               bucket :=
                 if b0.accountWide then VaultRepBucket.self b0
                 else VaultRepBucket.ref (b0.vaultBucket.getD junkVaultBucket) } := hfold
  constructor
  · rw [hmain]
    cases hf : (vaultIterationOrder catalog).find? (fun b => decide (vbHash b = x)) with
    | none =>
      simp only []
      constructor
      · intro _; exact (find?_vaultIterationOrder_none catalog x).mp hf
      · intro _; trivial
    | some b0 =>
      simp only []
      constructor
      · intro hcontra; exact absurd hcontra (Option.some_ne_none _)
      · intro hmt
        have := (find?_vaultIterationOrder_none catalog x).mpr hmt
        rw [hf] at this
        exact absurd this (Option.some_ne_none _)
  · intro e he
    rw [hmain] at he
    cases hf : (vaultIterationOrder catalog).find? (fun b => decide (vbHash b = x)) with
    | none =>
      rw [hf] at he
      exact absurd he (by simp)
    | some b0 =>
      rw [hf] at he
      simp only [Option.some.injEq] at he
      refine ⟨?_, b0, rfl, ?_⟩
      · rw [← he]
        exact countSum_eq_vaultOwnCount catalog sb x
      · rw [← he]

/-- Claim C4 witness: for a vault store holding one item in each of two
buckets both mapped to vault bucket 100 (the first of them accountWide),
the entry for 100 has count 2 and its representative bucket is the first
mapped bucket itself, per the amended theorem applied at this input. -/
theorem vaultCounts_amended_witness :
    ({ count := 2,
       bucket := VaultRepBucket.self
         { hash := 1, accountWide := true, vaultBucket := some { hash := 100 } } } :
        VaultCount).count = vaultOwnCount vcWitnessCatalog vcWitnessBuckets 100 ∧
    ∃ b0, (vaultIterationOrder vcWitnessCatalog).find?
        (fun b => decide (vbHash b = 100)) = some b0 ∧
      ({ count := 2,
         bucket := VaultRepBucket.self
           { hash := 1, accountWide := true, vaultBucket := some { hash := 100 } } } :
          VaultCount).bucket =
        (if b0.accountWide then VaultRepBucket.self b0
         else VaultRepBucket.ref (b0.vaultBucket.getD junkVaultBucket)) :=
  (vaultCounts_amended vcWitnessCatalog vcWitnessBuckets 100).2 _ (by decide)

theorem addToGroup_keys (m : BucketMap) (i : D1Item) :
    bucketKeys (addToGroup m i) =
      if i.location ∈ bucketKeys m then bucketKeys m
      else bucketKeys m ++ [i.location] := by
  induction m with
  | nil => simp [addToGroup, bucketKeys]
  | cons p rest ih =>
    obtain ⟨k, g⟩ := p
    show bucketKeys
        (if k = i.location then (k, g ++ [i]) :: rest else (k, g) :: addToGroup rest i) = _
    by_cases h : k = i.location
    · rw [if_pos h]
      have hm : i.location ∈ bucketKeys ((k, g) :: rest) := by
        simp [bucketKeys, h.symm]
      rw [if_pos hm]
      simp [bucketKeys]
    · rw [if_neg h]
      have hk : bucketKeys ((k, g) :: addToGroup rest i) =
          k :: bucketKeys (addToGroup rest i) := by simp [bucketKeys]
      rw [hk, ih]
      by_cases hmem : i.location ∈ bucketKeys rest
      · have h1 : i.location ∈ bucketKeys ((k, g) :: rest) := by
          simp [bucketKeys] at hmem ⊢
          exact Or.inr hmem
        rw [if_pos hmem, if_pos h1]
        simp [bucketKeys]
      · have h1 : i.location ∉ bucketKeys ((k, g) :: rest) := by
          simp [bucketKeys] at hmem ⊢
          exact ⟨fun e => h e.symm, hmem⟩
        rw [if_neg hmem, if_neg h1]
        simp [bucketKeys]
  
theorem foldl_addToGroup_keys_mem (items : List D1Item) : ∀ (m : BucketMap) (a : Nat),
    (a ∈ bucketKeys (items.foldl addToGroup m) ↔
      a ∈ bucketKeys m ∨ a ∈ items.map (fun i => i.location)) := by
  induction items with
  | nil => intro m a; simp
  | cons i t ih =>
    intro m a
    rw [List.foldl_cons, ih (addToGroup m i) a, addToGroup_keys]
    by_cases h : i.location ∈ bucketKeys m
    · rw [if_pos h]
      simp only [List.map_cons, List.mem_cons]
      constructor
      · rintro (hc | hc)
        · exact Or.inl hc
        · exact Or.inr (Or.inr hc)
      · rintro (hc | hc | hc)
        · exact Or.inl hc
        · exact Or.inl (hc ▸ h)
        · exact Or.inr hc
    · rw [if_neg h]
      simp only [List.map_cons, List.mem_cons, List.mem_append, List.mem_singleton,
        List.not_mem_nil, or_false]
      tauto

theorem foldl_addToGroup_keys_nodup (items : List D1Item) : ∀ m : BucketMap,
    (bucketKeys m).Nodup → (bucketKeys (items.foldl addToGroup m)).Nodup := by
  induction items with
  | nil => intro m h; exact h
  | cons i t ih =>
    intro m h
    rw [List.foldl_cons]
    apply ih
    rw [addToGroup_keys]
    by_cases hmem : i.location ∈ bucketKeys m
    · rw [if_pos hmem]; exact h
    · rw [if_neg hmem]
      simp [List.nodup_append, h, hmem]

theorem keys_groupByLocation_mem (items : List D1Item) (a : Nat) :
    a ∈ bucketKeys (groupByLocation items) ↔ a ∈ items.map (fun i => i.location) := by
  unfold groupByLocation
  rw [foldl_addToGroup_keys_mem items [] a]
  simp [bucketKeys]

theorem keys_groupByLocation_nodup (items : List D1Item) :
    (bucketKeys (groupByLocation items)).Nodup :=
  foldl_addToGroup_keys_nodup items [] (by simp [bucketKeys])

theorem lookupBucket_isSome (m : BucketMap) (x : Nat) :
    (lookupBucket m x).isSome = true ↔ x ∈ bucketKeys m := by
  induction m with
  | nil => simp [lookupBucket, bucketKeys]
  | cons p rest ih =>
    obtain ⟨k, v⟩ := p
    by_cases h : k = x
    · simp [lookupBucket, bucketKeys, h]
    · simp only [lookupBucket, if_neg h, ih]
      simp [bucketKeys, fun e : x = k => h e.symm]
      intro e
      exact absurd e.symm h

theorem lookupBucket_append (m1 m2 : BucketMap) (x : Nat) :
    lookupBucket (m1 ++ m2) x =
      match lookupBucket m1 x with
      | some v => some v
      | none => lookupBucket m2 x := by
  induction m1 with
  | nil => simp [lookupBucket]
  | cons p rest ih =>
    obtain ⟨k, v⟩ := p
    by_cases h : k = x
    · simp [lookupBucket, h]
    · simp only [List.cons_append, lookupBucket, if_neg h]
      exact ih

theorem fill_keys_mem (catalog : List InventoryBucket) : ∀ (m : BucketMap) (a : Nat),
    (a ∈ bucketKeys (fillMissingBuckets catalog m) ↔
      a ∈ bucketKeys m ∨ a ∈ catalog.map (fun b => b.hash)) := by
  induction catalog with
  | nil => intro m a; simp [fillMissingBuckets]
  | cons b c ih =>
    intro m a
    show a ∈ bucketKeys (fillMissingBuckets c
        (if (lookupBucket m b.hash).isSome then m else m ++ [(b.hash, [])])) ↔ _
    by_cases h : (lookupBucket m b.hash).isSome = true
    · rw [if_pos h]
      rw [ih m a]
      have hb : b.hash ∈ bucketKeys m := (lookupBucket_isSome m b.hash).mp h
      simp only [List.map_cons, List.mem_cons]
      constructor
      · rintro (hc | hc)
        · exact Or.inl hc
        · exact Or.inr (Or.inr hc)
      · rintro (hc | hc | hc)
        · exact Or.inl hc
        · exact Or.inl (hc ▸ hb)
        · exact Or.inr hc
    · rw [if_neg h]
      rw [ih (m ++ [(b.hash, [])]) a]
      have hk : bucketKeys (m ++ [(b.hash, [])]) = bucketKeys m ++ [b.hash] := by
        simp [bucketKeys]
      rw [hk]
      simp only [List.map_cons, List.mem_cons, List.mem_append, List.mem_singleton,
        List.not_mem_nil, or_false]
      tauto

theorem fill_keys_nodup (catalog : List InventoryBucket) : ∀ m : BucketMap,
    (bucketKeys m).Nodup → (bucketKeys (fillMissingBuckets catalog m)).Nodup := by
  induction catalog with
  | nil => intro m h; exact h
  | cons b c ih =>
    intro m h
    show (bucketKeys (fillMissingBuckets c
        (if (lookupBucket m b.hash).isSome then m else m ++ [(b.hash, [])]))).Nodup
    by_cases hs : (lookupBucket m b.hash).isSome = true
    · rw [if_pos hs]; exact ih m h
    · rw [if_neg hs]
      apply ih
      have hb : b.hash ∉ bucketKeys m := by
        intro hmem
        exact hs ((lookupBucket_isSome m b.hash).mpr hmem)
      have hk : bucketKeys (m ++ [(b.hash, [])]) = bucketKeys m ++ [b.hash] := by
        simp [bucketKeys]
      rw [hk]
      simp [List.nodup_append, h, hb]

theorem fill_preserves (catalog : List InventoryBucket) : ∀ (m : BucketMap) (x : Nat)
    (v : List D1Item), lookupBucket m x = some v →
    lookupBucket (fillMissingBuckets catalog m) x = some v := by
  induction catalog with
  | nil => intro m x v h; exact h
  | cons b c ih =>
    intro m x v h
    show lookupBucket (fillMissingBuckets c
        (if (lookupBucket m b.hash).isSome then m else m ++ [(b.hash, [])])) x = some v
    by_cases hs : (lookupBucket m b.hash).isSome = true
    · rw [if_pos hs]; exact ih m x v h
    · rw [if_neg hs]
      apply ih
      rw [lookupBucket_append, h]

theorem fill_lookup_mem (catalog : List InventoryBucket) : ∀ (m : BucketMap) (x : Nat),
    x ∈ catalog.map (fun b => b.hash) →
    lookupBucket (fillMissingBuckets catalog m) x = some ((lookupBucket m x).getD []) := by
  induction catalog with
  | nil => intro m x h; exact absurd h (List.not_mem_nil x)
  | cons b c ih =>
    intro m x hx
    show lookupBucket (fillMissingBuckets c
        (if (lookupBucket m b.hash).isSome then m else m ++ [(b.hash, [])])) x = _
    by_cases hbx : b.hash = x
    · by_cases hs : (lookupBucket m b.hash).isSome = true
      · rw [if_pos hs]
        rw [hbx] at hs
        obtain ⟨v, hv⟩ := Option.isSome_iff_exists.mp hs
        rw [fill_preserves c m x v hv, hv]
        rfl
      · rw [if_neg hs]
        rw [hbx] at hs
        have hnone : lookupBucket m x = none := Option.not_isSome_iff_eq_none.mp hs
        have happ : lookupBucket (m ++ [(b.hash, [])]) x = some [] := by
          rw [lookupBucket_append, hnone]
          simp [lookupBucket, hbx]
        rw [fill_preserves c _ x [] happ, hnone]
        rfl
    · have hxc : x ∈ c.map (fun b => b.hash) := by
        have hx' := hx
        rw [List.map_cons] at hx'
        rcases List.mem_cons.mp hx' with h | h
        · exact absurd h.symm hbx
        · exact h
      by_cases hs : (lookupBucket m b.hash).isSome = true
      · rw [if_pos hs]
        exact ih m x hxc
      · rw [if_neg hs]
        rw [ih (m ++ [(b.hash, [])]) x hxc]
        have : lookupBucket (m ++ [(b.hash, [])]) x = lookupBucket m x := by
          rw [lookupBucket_append]
          cases hm : lookupBucket m x with
          | some v => rfl
          | none => simp [lookupBucket, hbx]
        rw [this]

/-- Claim C5 counterexample: an item whose location (42) is not a catalog
bucket creates a forty-second key in the store's bucket mapping, so for a
catalog of size 1 the mapping has 2 keys, not exactly 1: the key count is
not independent of the items' locations. -/
theorem storeBuckets_cex :
    bucketKeys (fillBuckets [{ itemId := 1, location := 42 }]
        [{ hash := 7, accountWide := false, vaultBucket := none }]) = [42, 7] ∧
    (bucketKeys (fillBuckets [{ itemId := 1, location := 42 }]
        [{ hash := 7, accountWide := false, vaultBucket := none }])).length = 2 ∧
    ([({ hash := 7, accountWide := false, vaultBucket := none } : InventoryBucket)]).length
        = 1 ∧
    (2 : Nat) ≠ 1 := by
  refine ⟨by decide, by decide, by decide, by decide⟩

/-- Claim C5 (amended): every catalog bucket appears as a key of the
store's bucket mapping, mapped to the empty list when the store holds no
items in it; and when the catalog's hashes are distinct and every item's
location is a catalog bucket, the mapping has exactly N keys for a
catalog of size N (an item located outside the catalog adds an extra
key, so the restriction on the items' locations is necessary). -/
theorem storeBuckets_amended (items : List D1Item) (catalog : List InventoryBucket) :
    (∀ b ∈ catalog, b.hash ∈ bucketKeys (fillBuckets items catalog)) ∧
    (∀ b ∈ catalog, b.hash ∉ items.map (fun i => i.location) →
      lookupBucket (fillBuckets items catalog) b.hash = some []) ∧
    ((catalog.map (fun b => b.hash)).Nodup →
      (∀ i ∈ items, i.location ∈ catalog.map (fun b => b.hash)) →
      (bucketKeys (fillBuckets items catalog)).length = catalog.length) := by
  unfold fillBuckets
  refine ⟨?_, ?_, ?_⟩
  · intro b hb
    exact (fill_keys_mem catalog (groupByLocation items) b.hash).mpr
      (Or.inr (List.mem_map_of_mem _ hb))
  · intro b hb hnot
    rw [fill_lookup_mem catalog (groupByLocation items) b.hash
      (List.mem_map_of_mem _ hb)]
    have hnk : b.hash ∉ bucketKeys (groupByLocation items) :=
      fun hmem2 => hnot ((keys_groupByLocation_mem items b.hash).mp hmem2)
    have hnone : lookupBucket (groupByLocation items) b.hash = none :=
      Option.not_isSome_iff_eq_none.mp
        (fun hs => hnk ((lookupBucket_isSome _ _).mp hs))
    rw [hnone]
    rfl
  · intro hnd hloc
    have hnodup : (bucketKeys (fillMissingBuckets catalog (groupByLocation items))).Nodup :=
      fill_keys_nodup catalog _ (keys_groupByLocation_nodup items)
    have hmemiff : ∀ a, a ∈ bucketKeys (fillMissingBuckets catalog (groupByLocation items))
        ↔ a ∈ catalog.map (fun b => b.hash) := by
      intro a
      rw [fill_keys_mem catalog (groupByLocation items) a]
      constructor
      · rintro (h | h)
        · obtain ⟨i, hi, hia⟩ :=
            List.mem_map.mp ((keys_groupByLocation_mem items a).mp h)
          exact hia ▸ hloc i hi
        · exact h
      · intro h; exact Or.inr h
    have hperm : List.Perm
        (bucketKeys (fillMissingBuckets catalog (groupByLocation items)))
        (catalog.map (fun b => b.hash)) :=
      (List.perm_ext_iff_of_nodup hnodup hnd).mpr hmemiff
    rw [hperm.length_eq, List.length_map]

/-- Claim C5 witness: for the two-bucket catalog with hashes 7 and 8 and
one item located in bucket 7, bucket 8 is mapped to the empty list and
the mapping has exactly 2 keys. -/
theorem storeBuckets_amended_witness :
    lookupBucket (fillBuckets fillWitnessItems fillWitnessCatalog) 8 = some [] ∧
    (bucketKeys (fillBuckets fillWitnessItems fillWitnessCatalog)).length =
      fillWitnessCatalog.length :=
  ⟨(storeBuckets_amended fillWitnessItems fillWitnessCatalog).2.1
      { hash := 8, accountWide := false, vaultBucket := none } (by decide) (by decide),
    (storeBuckets_amended fillWitnessItems fillWitnessCatalog).2.2
      (by decide) (by decide)⟩
